import Mathlib

/-!
# godbkit: criteria compiler and criteria parser

A shallow embedding of `criteriamanager/filter.go`, `criteriamanager/criteria.go`,
`criteriamanager/criteria_parser.go` and `internal/kit/strings.go`.

Conventions of the embedding:

* a Go `string` is a Lean `String` (a sequence of Unicode scalar values, i.e. valid UTF-8);
* a Go `any` that holds a `string` or a `bool` is a `Value`;
* a function that can panic at run time returns `Option`, and `none` is the panic;
* a Go `map[string][]string` is the list of its entries in the order in which the
  `range` loop visits them.
-/

set_option autoImplicit false

namespace Godbkit

/-! ## Go standard library: `strings` -/

namespace strings

/-- Go `strings.HasPrefix` on rune lists. -/
def hasPrefix : List Char → List Char → Bool
  | _, [] => true
  | [], _ :: _ => false
  | c :: cs, p :: ps => c == p && hasPrefix cs ps

/-- Go `strings.Contains` on rune lists: some suffix of `s` starts with `substr`. -/
def containsChars : List Char → List Char → Bool
  | [], substr => hasPrefix [] substr
  | c :: cs, substr => hasPrefix (c :: cs) substr || containsChars cs substr

/-- Go `strings.Contains`. -/
def Contains (s substr : String) : Bool :=
  containsChars s.data substr.data

/-- Scanning loop of `strings.Split` for a non-empty separator: `skip` counts the runes of
a separator occurrence that are still to be passed over, `cur` is the segment read so far
(reversed). The leftmost occurrence is cut first and occurrences do not overlap. -/
def splitGo (sep : List Char) : List Char → Nat → List Char → List (List Char)
  | [], _, cur => [cur.reverse]
  | _ :: cs, skip + 1, cur => splitGo sep cs skip cur
  | c :: cs, 0, cur =>
    if hasPrefix (c :: cs) sep then cur.reverse :: splitGo sep cs (sep.length - 1) []
    else splitGo sep cs 0 (c :: cur)

/-- Go `strings.Split(s, sep)`: with an empty separator the string is cut into its runes. -/
def Split (s sep : String) : List String :=
  if sep.data = [] then s.data.map (fun c => String.mk [c])
  else (splitGo sep.data s.data 0 []).map String.mk

/-- Go `strings.Join(elems, sep)`. -/
def Join (elems : List String) (sep : String) : String :=
  sep.intercalate elems

/-- Go `strings.TrimPrefix`. -/
def TrimPrefix (s pre : String) : String :=
  if hasPrefix s.data pre.data then String.mk (s.data.drop pre.data.length) else s

/-- Go `strings.TrimSuffix`. -/
def TrimSuffix (s suf : String) : String :=
  if hasPrefix s.data.reverse suf.data.reverse then
    String.mk (s.data.take (s.data.length - suf.data.length))
  else s

end strings

/-! ## Go standard library: `fmt.Sprintf` on string operands -/

namespace fmt

/-- Flag characters of a formatting directive. -/
def isFlag (c : Char) : Bool :=
  c == '#' || c == '0' || c == '+' || c == '-' || c == ' '

/-- Where the formatting loop stands: in plain text, or inside a directive reading its flags
(`bare` while no flag has been read), its width or its precision. -/
inductive Phase where
  | text
  | flags (bare : Bool)
  | width
  | prec
deriving DecidableEq, Repr

/-- Rendering of the operands left over once the format is used up. -/
def extra (operands : List String) : List Char :=
  "%!(EXTRA ".data ++ (", ".intercalate (operands.map (fun o => "string=" ++ o))).data ++ [')']

/-- The verb `c` of a directive met in phase `ph`: what it prints and the operands left. -/
def verb (c : Char) (ph : Phase) (operands : List String) : List Char × List String :=
  if c == '%' then (['%'], operands)
  else
    match operands with
    | [] => ("%!".data ++ [c] ++ "(MISSING)".data, [])
    | o :: os =>
      if (c == 's' || c == 'v') && ph == Phase.flags true then (o.data, os)
      else ("%!".data ++ [c] ++ "(string=".data ++ o.data ++ [')'], os)

/-- Formatting loop of `fmt.Sprintf` for operands that are all strings.

Covered: plain text, `%%`, a bare `%s` or `%v` with an operand (printed verbatim), any
directive reached with no operand left (`%!c(MISSING)`), a format ending inside a directive
(`%!(NOVERB)`) and left-over operands (`%!(EXTRA ...)`). Explicit argument indexes `[n]`,
`*` widths and the flagged, padded or quoted renderings of an operand are not modelled; every
format of this program spends its operands on leading bare `%s` directives. -/
def doPrintf : List Char → List String → Phase → List Char
  | [], [], Phase.text => []
  | [], o :: os, Phase.text => extra (o :: os)
  | [], _, _ => "%!(NOVERB)".data
  | c :: cs, operands, Phase.text =>
    if c == '%' then doPrintf cs operands (Phase.flags true)
    else c :: doPrintf cs operands Phase.text
  | c :: cs, operands, Phase.flags bare =>
    if isFlag c then doPrintf cs operands (Phase.flags false)
    else if c.isDigit then doPrintf cs operands Phase.width
    else if c == '.' then doPrintf cs operands Phase.prec
    else (verb c (Phase.flags bare) operands).1
      ++ doPrintf cs (verb c (Phase.flags bare) operands).2 Phase.text
  | c :: cs, operands, Phase.width =>
    if c.isDigit then doPrintf cs operands Phase.width
    else if c == '.' then doPrintf cs operands Phase.prec
    else (verb c Phase.width operands).1 ++ doPrintf cs (verb c Phase.width operands).2 Phase.text
  | c :: cs, operands, Phase.prec =>
    if c.isDigit then doPrintf cs operands Phase.prec
    else (verb c Phase.prec operands).1 ++ doPrintf cs (verb c Phase.prec operands).2 Phase.text

/-- Go `fmt.Sprintf(format, operands...)` for string operands. -/
def Sprintf (format : String) (operands : List String) : String :=
  String.mk (doPrintf format.data operands Phase.text)

end fmt

/-! ## `criteriamanager/filter.go` -/

/-- Filter represents the structure of the filter parameters. -/
structure Filter where
  Campo : String
  Operador : String
  Valor : String
deriving DecidableEq, Repr, Inhabited

/-- Go `NewFilter`. -/
def NewFilter (campo operador valor : String) : Filter :=
  { Campo := campo, Operador := operador, Valor := valor }

/-- A Go `any` holding either a `string` or a `bool`: the dynamic types of a bind value. -/
inductive Value where
  | str (s : String)
  | bool (b : Bool)
deriving DecidableEq, Repr

/-- The template of `convertToJSONPath`. -/
def jsonTemplate : String := "JSON_EXTRACT(%s, '$.%s')"

/-- The `for i, part := range parts` loop of `convertToJSONPath`; `rest` is what is left of
`parts` from index `i` on and `expression` the loop variable. -/
def convertLoop (parts : List String) : List String → Nat → String → String
  | [], _, expression => expression
  | part :: rest, i, expression =>
    let expression :=
      if i = 1 then fmt.Sprintf jsonTemplate [parts.headD "", part] else expression
    let expression :=
      if i > 1 then fmt.Sprintf jsonTemplate [expression, part] else expression
    convertLoop parts rest (i + 1) expression

/-- Go `convertToJSONPath`. `strings.Split` never returns an empty slice, so `parts[0]`
exists. -/
def convertToJSONPath (input : String) : String :=
  let parts := strings.Split input "->"
  if parts.length > 1 then convertLoop parts parts 0 ""
  else parts.headD ""

/-- Go `generateCondition`: the condition string and the bind value of one filter. The type
assertion `valor.(string)` of the LIKE case panics when `valor` holds a `bool`. -/
def generateCondition (filter : Filter) : Option (String × Value) :=
  let query := ""
  let valor : Value :=
    if filter.Valor = "true" ∨ filter.Valor = "false" then
      Value.bool (decide (filter.Valor = "true"))
    else Value.str filter.Valor
  let sprintfTemplate := "%s"
  let result := convertToJSONPath filter.Campo
  if filter.Operador = "=" then
    if filter.Valor = "NULL" ∨ filter.Valor = "NOT NULL" then
      some (fmt.Sprintf (sprintfTemplate ++ " IS " ++ filter.Valor) [result], valor)
    else
      some (fmt.Sprintf (sprintfTemplate ++ " = ?") [result], valor)
  else if filter.Operador = ">" then
    some (fmt.Sprintf (sprintfTemplate ++ " > ?") [result], valor)
  else if filter.Operador = "<>" then
    some (fmt.Sprintf (sprintfTemplate ++ " <> ?") [result], valor)
  else if filter.Operador = ">=" then
    some (fmt.Sprintf (sprintfTemplate ++ " > ?") [result], valor)
  else if filter.Operador = "<" then
    some (fmt.Sprintf (sprintfTemplate ++ " < ?") [result], valor)
  else if filter.Operador = "<=" then
    some (fmt.Sprintf (sprintfTemplate ++ " <= ?") [result], valor)
  else if filter.Operador = "IS" ∨ filter.Operador = "is" then
    some (fmt.Sprintf (sprintfTemplate ++ " IS " ++ filter.Valor) [result], valor)
  else if filter.Operador = "LIKE" ∨ filter.Operador = "like" then
    match valor with
    | Value.str s => some (fmt.Sprintf "%s LIKE ?" [result], Value.str ("%" ++ s ++ "%"))
    | Value.bool _ => none
  else
    some (query, valor)

/-- The inner loop of `ParseConditions` over the filters of one group, threading
`subConditions` and `queryValues`. -/
def filterLoop : List Filter → List String → List Value → Option (List String × List Value)
  | [], subConditions, queryValues => some (subConditions, queryValues)
  | filter :: rest, subConditions, queryValues =>
    match generateCondition filter with
    | none => none
    | some (condition, valor) =>
      let queryValues :=
        if valor ≠ Value.str "NULL" ∧ valor ≠ Value.str "NOT NULL" then queryValues ++ [valor]
        else queryValues
      let subConditions :=
        if condition ≠ "" then subConditions ++ [condition] else subConditions
      filterLoop rest subConditions queryValues

/-- The outer loop of `ParseConditions` over the groups, threading `conditions` and
`queryValues`. -/
def groupLoop : List (List Filter) → List String → List Value →
    Option (List String × List Value)
  | [], conditions, queryValues => some (conditions, queryValues)
  | elem :: rest, conditions, queryValues =>
    match filterLoop elem [] queryValues with
    | none => none
    | some (subConditions, queryValues) =>
      let subCondition := strings.Join subConditions " OR "
      let subCondition :=
        if subConditions.length > 1 then "(" ++ subCondition ++ ")" else subCondition
      groupLoop rest (conditions ++ [subCondition]) queryValues

/-- Go `ParseConditions`. -/
def ParseConditions (params : List (List Filter)) : Option (String × List Value) :=
  match groupLoop params [] [] with
  | none => none
  | some (conditions, queryValues) => some (strings.Join conditions " AND ", queryValues)

/-! ## Go standard library: `unicode` and `strconv` -/

namespace unicode

/-- The case tables behind Go's `unicode.IsUpper` and `unicode.ToLower`. They belong to the
standard library and are taken as a parameter. -/
structure CaseTables where
  IsUpper : Char → Bool
  ToLower : Char → Char

/-- The ASCII part of the case tables, used to evaluate examples. -/
def ascii : CaseTables :=
  { IsUpper := Char.isUpper, ToLower := Char.toLower }

end unicode

namespace strconv

/-- The two errors of `strconv`. -/
inductive NumError where
  | ErrSyntax
  | ErrRange
deriving DecidableEq, Repr

/-- The digit loop of `strconv.ParseUint(s, 10, 64)`: each byte is checked and accumulated
in turn, the first failure ends the loop (syntax error gives 0, overflow gives `2^64 - 1`). -/
def parseUintLoop : List Char → Nat → Nat × Option NumError
  | [], n => (n, none)
  | c :: cs, n =>
    if '0' ≤ c ∧ c ≤ '9' then
      if n ≥ (2 ^ 64 - 1) / 10 + 1 then (2 ^ 64 - 1, some NumError.ErrRange)
      else if n * 10 + (c.toNat - '0'.toNat) > 2 ^ 64 - 1 then
        (2 ^ 64 - 1, some NumError.ErrRange)
      else parseUintLoop cs (n * 10 + (c.toNat - '0'.toNat))
    else (0, some NumError.ErrSyntax)

/-- Go `strconv.ParseUint(s, 10, 64)`. -/
def ParseUint (s : List Char) : Nat × Option NumError :=
  if s = [] then (0, some NumError.ErrSyntax) else parseUintLoop s 0

/-- Sign handling and clamping of `strconv.ParseInt(s, 10, 0)` on a 64-bit platform, given the
unsigned digits `s` and the sign. -/
def parseIntSigned (neg : Bool) (s : List Char) : Int × Option NumError :=
  match ParseUint s with
  | (_, some NumError.ErrSyntax) => (0, some NumError.ErrSyntax)
  | (un, _) =>
    if !neg && un ≥ 2 ^ 63 then ((2 : Int) ^ 63 - 1, some NumError.ErrRange)
    else if neg && un > 2 ^ 63 then (-(2 : Int) ^ 63, some NumError.ErrRange)
    else (if neg then -(un : Int) else (un : Int), none)

/-- Go `strconv.Atoi`, which is `ParseInt(s, 10, 0)` converted to `int` (64 bits): the value
and the error, if any. -/
def Atoi (s : String) : Int × Option NumError :=
  match s.data with
  | [] => (0, some NumError.ErrSyntax)
  | '+' :: rest => parseIntSigned false rest
  | '-' :: rest => parseIntSigned true rest
  | c :: rest => parseIntSigned false (c :: rest)

end strconv

/-! ## `internal/kit/strings.go` -/

namespace kit

/-- The `for i, r := range input` loop of `CamelToUnderscore`; `later` is `i > 0`. -/
def camelLoop (U : unicode.CaseTables) : List Char → Bool → List Char
  | [], _ => []
  | r :: rest, later =>
    if U.IsUpper r then
      (if later then ['_'] else []) ++ [U.ToLower r] ++ camelLoop U rest true
    else r :: camelLoop U rest true

/-- Go `CamelToUnderscore`. -/
def CamelToUnderscore (U : unicode.CaseTables) (input : String) : String :=
  String.mk (camelLoop U input.data false)

end kit

/-! ## `criteriamanager/criteria.go` -/

/-- Go `Criteria`; a nil pointer is `none`. -/
structure Criteria where
  filtros : List (List Filter)
  limit : Option Int
  offset : Option Int
  order : Option String
  ordeby : Option String
deriving DecidableEq, Repr

/-- Go `NewCriteria`. -/
def NewCriteria (filtros : List (List Filter)) (limit offset : Option Int)
    (order orderBy : Option String) : Criteria :=
  { filtros := filtros, limit := limit, offset := offset, order := order, ordeby := orderBy }

/-- Go `EmptyCriteria`. -/
def EmptyCriteria : Criteria :=
  { filtros := [], limit := none, offset := none, order := none, ordeby := none }

/-- Go `Criteria.GETFILTROS`. -/
def Criteria.GETFILTROS (c : Criteria) : List (List Filter) := c.filtros

/-- Go `Criteria.GETORDER`. -/
def Criteria.GETORDER (c : Criteria) : String :=
  let order := ""
  let order := match c.ordeby with
    | some ordeby => ordeby
    | none => order
  let order := match c.order with
    | some dir => order ++ (" " ++ dir)
    | none => order
  order

/-! ## `criteriamanager/criteria_parser.go` -/

/-- A decoded query string, Go `map[string][]string`: its entries in the order in which
`range` visits them. -/
abbrev QueryParam := List (String × List String)

/-- Go `getOrder`. -/
def getOrder (params : QueryParam) : Option String :=
  match params.lookup "order" with
  | some (orderAux :: _) => some orderAux
  | _ => none

/-- Go `getOrderBy`. -/
def getOrderBy (U : unicode.CaseTables) (params : QueryParam) : Option String :=
  match params.lookup "orderBy" with
  | some (first :: _) => some (kit.CamelToUnderscore U first)
  | _ => none

/-- Go `getLimits`. -/
def getLimits (params : QueryParam) (field : String) : Option Int :=
  match params.lookup field with
  | some (first :: _) =>
    match strconv.Atoi first with
    | (limit, none) => some limit
    | (_, some _) => none
  | _ => none

/-- Apply `f` to the element at position `n`, if there is one. -/
def modifyAt {α : Type} (f : α → α) : List α → Nat → List α
  | [], _ => []
  | a :: as, 0 => f a :: as
  | a :: as, n + 1 => a :: modifyAt f as n

/-- The loop `for len(xs) <= index { xs = append(xs, fill) }`: it appends `index + 1 - len(xs)`
cells when that number is positive and nothing otherwise. Memory is not bounded here. -/
def growTo {α : Type} (xs : List α) (index : Int) (fill : α) : List α :=
  xs ++ List.replicate (index + 1 - (xs.length : Int)).toNat fill

/-- The field stored for `campo`: the column is snake-cased, the JSON keys are kept. -/
def campoField (U : unicode.CaseTables) (value : String) : String :=
  let parts := strings.Split value "->"
  let field := kit.CamelToUnderscore U (parts.headD "")
  if parts.length > 1 then field ++ ("->" ++ strings.Join parts.tail "->") else field

/-- The assignment `conditionArrays[index1][index2].X = v`; it panics on a negative
`index2` (`index1` is known to be in range where it is used). -/
def assignCell (conditionArrays : List (List Filter)) (index1 : Nat) (index2 : Int)
    (set : Filter → Filter) : Option (List (List Filter)) :=
  if index2 < 0 then none
  else some (modifyAt (fun row => modifyAt set row index2.toNat) conditionArrays index1)

/-- The body of `for _, value := range values` in `parseToFilterArrays`. Indexing
`conditionArrays[index1]` panics on a negative `index1`. -/
def valueStep (U : unicode.CaseTables) (index1 index2 : Int) (filterKey : String)
    (conditionArrays : List (List Filter)) (value : String) : Option (List (List Filter)) :=
  let conditionArrays := growTo conditionArrays index1 []
  if index1 < 0 then none
  else
    let conditionArrays :=
      modifyAt (fun row => growTo row index2 { Campo := "", Operador := "", Valor := "" })
        conditionArrays index1.toNat
    if filterKey = "campo" then
      assignCell conditionArrays index1.toNat index2
        (fun f => { f with Campo := campoField U value })
    else if filterKey = "operador" then
      assignCell conditionArrays index1.toNat index2 (fun f => { f with Operador := value })
    else if filterKey = "valor" then
      assignCell conditionArrays index1.toNat index2 (fun f => { f with Valor := value })
    else some conditionArrays

/-- The loop `for _, value := range values`. -/
def valuesLoop (U : unicode.CaseTables) (index1 index2 : Int) (filterKey : String) :
    List String → List (List Filter) → Option (List (List Filter))
  | [], conditionArrays => some conditionArrays
  | value :: rest, conditionArrays =>
    match valueStep U index1 index2 filterKey conditionArrays value with
    | none => none
    | some conditionArrays => valuesLoop U index1 index2 filterKey rest conditionArrays

/-- The parts a key is split into: `filters[` and `]` are trimmed, then `][` separates. -/
def keyParts (key : String) : List String :=
  strings.Split (strings.TrimSuffix (strings.TrimPrefix key "filters[") "]") "]["

/-- The body of `for key, values := range queryParam` in `parseToFilterArrays`. -/
def entryStep (U : unicode.CaseTables) (conditionArrays : List (List Filter))
    (entry : String × List String) : Option (List (List Filter)) :=
  if strings.Contains entry.1 "filter" then
    match keyParts entry.1 with
    | [p0, p1, filterKey] =>
      valuesLoop U (strconv.Atoi p0).1 (strconv.Atoi p1).1 filterKey entry.2 conditionArrays
    | _ => some conditionArrays
  else some conditionArrays

/-- The loop `for key, values := range queryParam`, which populates the filter matrix. -/
def populateLoop (U : unicode.CaseTables) :
    QueryParam → List (List Filter) → Option (List (List Filter))
  | [], conditionArrays => some conditionArrays
  | entry :: rest, conditionArrays =>
    match entryStep U conditionArrays entry with
    | none => none
    | some conditionArrays => populateLoop U rest conditionArrays

/-- The loop `for _, item := range condition`, threading `filteredCondition`. -/
def itemLoop : List Filter → List Filter → List Filter
  | [], filteredCondition => filteredCondition
  | item :: rest, filteredCondition =>
    itemLoop rest
      (if item.Valor ≠ "undefined" then filteredCondition ++ [item] else filteredCondition)

/-- The loop `for _, condition := range conditionArrays`, threading `result`. -/
def conditionLoop : List (List Filter) → List (List Filter) → List (List Filter)
  | [], result => result
  | condition :: rest, result =>
    conditionLoop rest
      (if (itemLoop condition []).length > 0 then result ++ [itemLoop condition []] else result)

/-- Go `parseToFilterArrays`. -/
def parseToFilterArrays (U : unicode.CaseTables) (queryParam : QueryParam) :
    Option (List (List Filter)) :=
  match populateLoop U queryParam [] with
  | none => none
  | some conditionArrays => some (conditionLoop conditionArrays [])

/-- Go `CriteriaFromRequest`. -/
def CriteriaFromRequest (U : unicode.CaseTables) (queryParam : QueryParam) : Option Criteria :=
  let limit := getLimits queryParam "limit"
  let offset := getLimits queryParam "offset"
  let order := getOrder queryParam
  let orderBy := getOrderBy U queryParam
  match parseToFilterArrays U queryParam with
  | none => none
  | some filtros => some (NewCriteria filtros limit offset order orderBy)

/-! ## Definitions that follow the specification -/

/-- Spec, 4.2 step 3: one extraction call around expression `e` with key `k`. -/
def jsonExtract (e k : String) : String :=
  "JSON_EXTRACT(" ++ e ++ ", '$." ++ k ++ "')"

/-- Spec, 4.2 step 3: `expr(level 0) = column`, `expr(level i) = JSONPATH(expr(level i-1), key_i)`. -/
def exprLevel (column : String) (keys : List String) : Nat → String
  | 0 => column
  | i + 1 => jsonExtract (exprLevel column keys i) (keys.getD i "")

/-- The operators that `generateCondition` compiles to a fragment. -/
def supportedOperator (op : String) : Bool :=
  decide (op ∈ ["=", ">", "<>", ">=", "<", "<=", "IS", "is", "LIKE", "like"])

/-- Spec, 4.2 step 1: the fragments of the filters of one group, in order. There is none when
compiling some filter of the group panics. -/
def groupFragments : List Filter → Option (List String)
  | [] => some []
  | filter :: rest =>
    match generateCondition filter, groupFragments rest with
    | some (fragment, _), some fragments => some (fragment :: fragments)
    | _, _ => none

/-- Spec, 4.2 step 1: the fragments of every group, in group order. -/
def allFragments : List (List Filter) → Option (List (List String))
  | [] => some []
  | group :: rest =>
    match groupFragments group, allFragments rest with
    | some fragments, some others => some (fragments :: others)
    | _, _ => none

/-- Spec, 4.2 step 4: fragments within a group are joined with OR; if more than one fragment,
the joined result is parenthesized. -/
def renderGroup (fragments : List String) : String :=
  if fragments.length > 1 then "(" ++ strings.Join fragments " OR " ++ ")"
  else strings.Join fragments " OR "

/-- Spec, 4.2 step 5: groups are joined with AND in original order. -/
def renderGroups (groups : List (List String)) : String :=
  strings.Join (groups.map renderGroup) " AND "

/-- Spec, 6: the number of `?` placeholders of an expression. -/
def countPlaceholders (expression : String) : Nat :=
  expression.data.count '?'

/-- Spec, 4.2 step 6: the bind values of the filters whose fragment carries a placeholder, in
group order and then filter order. -/
def placeholderValues (params : List (List Filter)) : List Value :=
  params.flatten.filterMap (fun filter =>
    match generateCondition filter with
    | some (fragment, valor) => if '?' ∈ fragment.data then some valor else none
    | none => none)

/-- Spec, 4.1: reads a non-empty run of decimal digits followed by `close`, and returns what
comes after. -/
def readIndex (close : List Char) (s : List Char) : Option (List Char) :=
  let digits := s.takeWhile Char.isDigit
  let rest := s.dropWhile Char.isDigit
  if digits ≠ [] ∧ strings.hasPrefix rest close then some (rest.drop close.length) else none

/-- Spec, 4.1: the key has the exact form `filters[<i>][<j>][<attr>]` with `i` and `j`
non-negative decimal integers and `attr` one of campo, operador, valor. -/
def isFilterKey (key : String) : Bool :=
  if strings.hasPrefix key.data "filters[".data then
    match readIndex "][".data (key.data.drop "filters[".data.length) with
    | some afterI =>
      match readIndex "][".data afterI with
      | some attr => decide (String.mk attr ∈ ["campo]", "operador]", "valor]"])
      | none => false
    | none => false
  else false

/-- The test that `parseToFilterArrays` applies to a key before reading it: the key contains
"filter" and is cut into exactly three parts. -/
def acceptedKey (key : String) : Bool :=
  strings.Contains key "filter" && decide ((keyParts key).length = 3)

/-- Spec, 4.1: filters whose value equals "undefined" are discarded; groups left empty are
discarded. -/
def survivors (matrix : List (List Filter)) : List (List Filter) :=
  (matrix.map (List.filter (fun f => decide (f.Valor ≠ "undefined")))).filter
    (fun group => decide (group ≠ []))

/-! ## Theorems -/

/-! ### Strings -/

theorem splitGo_ne_nil (sep s : List Char) (k : Nat) (cur : List Char) :
    strings.splitGo sep s k cur ≠ [] := by
  induction s generalizing k cur with
  | nil => simp [strings.splitGo]
  | cons c cs ih =>
    cases k with
    | zero =>
      simp only [strings.splitGo]
      split
      · simp
      · exact ih _ _
    | succ k => simpa [strings.splitGo] using ih k cur

theorem splitGo_of_not_contains (sep s : List Char) (cur : List Char)
    (h : strings.containsChars s sep = false) :
    strings.splitGo sep s 0 cur = [cur.reverse ++ s] := by
  induction s generalizing cur with
  | nil => simp [strings.splitGo]
  | cons c cs ih =>
    simp only [strings.containsChars, Bool.or_eq_false_iff] at h
    simp [strings.splitGo, h.1, ih (c :: cur) h.2]

theorem Split_ne_nil (s sep : String) (hsep : sep.data ≠ []) : strings.Split s sep ≠ [] := by
  simp [strings.Split, hsep, splitGo_ne_nil]

theorem Split_of_not_contains (s sep : String) (hsep : sep.data ≠ [])
    (h : strings.Contains s sep = false) : strings.Split s sep = [s] := by
  simp [strings.Split, hsep, splitGo_of_not_contains sep.data s.data [] h]

theorem intercalate_go_data (sep acc : String) (l : List String) :
    (String.intercalate.go acc sep l).data
      = acc.data ++ l.foldr (fun x r => sep.data ++ x.data ++ r) [] := by
  induction l generalizing acc with
  | nil => simp [String.intercalate.go]
  | cons a l ih => simp [String.intercalate.go, ih, String.data_append]

theorem hasPrefix_eq_append (s p : List Char) (h : strings.hasPrefix s p = true) :
    s = p ++ s.drop p.length := by
  induction p generalizing s with
  | nil => simp
  | cons c p ih =>
    cases s with
    | nil => simp [strings.hasPrefix] at h
    | cons d s =>
      simp only [strings.hasPrefix, Bool.and_eq_true, beq_iff_eq] at h
      obtain ⟨rfl, hp⟩ := h
      simpa using ih s hp

theorem splitGo_join (sep s : List Char) (hsep : sep ≠ []) (k : Nat) (cur : List Char)
    (hk : k ≤ s.length) :
    ∃ first rest, strings.splitGo sep s k cur = first :: rest ∧
      first ++ rest.foldr (fun x r => sep ++ x ++ r) [] = cur.reverse ++ s.drop k := by
  induction s generalizing k cur with
  | nil =>
    have : k = 0 := by simpa using hk
    subst this
    exact ⟨cur.reverse, [], by simp [strings.splitGo], by simp⟩
  | cons c cs ih =>
    cases k with
    | succ k =>
      obtain ⟨first, rest, h1, h2⟩ := ih k cur (by simpa using hk)
      exact ⟨first, rest, by simpa [strings.splitGo] using h1, by simpa using h2⟩
    | zero =>
      by_cases hp : strings.hasPrefix (c :: cs) sep = true
      · have happ := hasPrefix_eq_append (c :: cs) sep hp
        have hlen : sep.length - 1 ≤ cs.length := by
          have := congrArg List.length happ
          simp at this
          omega
        obtain ⟨first, rest, h1, h2⟩ := ih (sep.length - 1) [] hlen
        refine ⟨cur.reverse, first :: rest, by simp [strings.splitGo, hp, h1], ?_⟩
        simp only [List.foldr_cons, List.drop_zero]
        have h3 : sep ++ (first ++ List.foldr (fun x r => sep ++ x ++ r) [] rest) = c :: cs := by
          rw [h2]
          cases sep with
          | nil => exact absurd rfl hsep
          | cons d sep' =>
            simp only [strings.hasPrefix, Bool.and_eq_true, beq_iff_eq] at hp
            obtain ⟨rfl, hp'⟩ := hp
            have := hasPrefix_eq_append cs sep' hp'
            simpa using this.symm
        simp only [List.append_assoc] at h3 ⊢
        rw [h3]
      · obtain ⟨first, rest, h1, h2⟩ := ih 0 (c :: cur) (by simp)
        refine ⟨first, rest, by simp [strings.splitGo, hp, h1], by simpa using h2⟩

/-- Joining the pieces of a split with the separator gives the string back. -/
theorem Join_Split (s sep : String) (hsep : sep.data ≠ []) :
    strings.Join (strings.Split s sep) sep = s := by
  obtain ⟨first, rest, h1, h2⟩ := splitGo_join sep.data s.data hsep 0 [] (Nat.zero_le _)
  apply String.ext
  simp only [strings.Join, strings.Split, hsep, if_false, h1, List.map_cons, String.intercalate,
    intercalate_go_data]
  simp only [List.reverse_nil, List.nil_append, List.drop_zero] at h2
  rw [← h2]
  congr 1
  clear h1 h2
  induction rest with
  | nil => rfl
  | cons a rest ih => simp only [List.map_cons, List.foldr_cons, ih]

/-! ### `fmt.Sprintf` on the formats of the program -/

theorem Sprintf_jsonTemplate (a b : String) :
    fmt.Sprintf jsonTemplate [a, b] = jsonExtract a b := by
  apply String.ext
  simp [fmt.Sprintf, jsonTemplate, jsonExtract, fmt.doPrintf, fmt.verb, fmt.isFlag, Char.isDigit]

/-! ### `convertToJSONPath` -/

theorem convertLoop_from_two (parts rest : List String) (i : Nat) (e : String) (hi : 2 ≤ i) :
    convertLoop parts rest i e = rest.foldl jsonExtract e := by
  induction rest generalizing i e with
  | nil => rfl
  | cons k rest ih =>
    have h1 : ¬ i = 1 := by omega
    have h2 : i > 1 := by omega
    simp only [convertLoop, h1, h2, if_true, if_false, List.foldl_cons, Sprintf_jsonTemplate]
    exact ih (i + 1) _ (by omega)

theorem convertLoop_from_zero (column : String) (keys : List String) (e : String) :
    convertLoop (column :: keys) (column :: keys) 0 e
      = match keys with
        | [] => e
        | k :: rest => rest.foldl jsonExtract (jsonExtract column k) := by
  cases keys with
  | nil => rfl
  | cons k rest =>
    simp only [convertLoop, Sprintf_jsonTemplate, List.headD_cons]
    simp [convertLoop_from_two]

theorem exprLevel_eq_foldl (column : String) (keys : List String) (n : Nat)
    (hn : n ≤ keys.length) :
    exprLevel column keys n = (keys.take n).foldl jsonExtract column := by
  induction n with
  | zero => rfl
  | succ n ih =>
    have hlt : n < keys.length := by omega
    rw [exprLevel, ih (by omega), List.take_succ, List.foldl_append]
    simp [List.getD, List.getElem?_eq_getElem hlt]

/-- C9. `convertToJSONPath` cuts the field on "->" into a column and keys k1..kn (which joined
by "->" give the field back) and returns the left-to-right nesting e0 = column,
ei = JSON_EXTRACT(e(i-1), '$.ki') taken at level n; a field that contains no "->" is returned
verbatim. -/
theorem convertToJSONPath_nesting (input : String) :
    ∃ column keys, strings.Split input "->" = column :: keys ∧
      strings.Join (column :: keys) "->" = input ∧
      convertToJSONPath input = exprLevel column keys keys.length ∧
      (strings.Contains input "->" = false → convertToJSONPath input = input) := by
  have hsep : ("->" : String).data ≠ [] := by decide
  obtain ⟨column, keys, hsplit⟩ : ∃ column keys, strings.Split input "->" = column :: keys := by
    cases h : strings.Split input "->" with
    | nil => exact absurd h (Split_ne_nil input "->" hsep)
    | cons column keys => exact ⟨column, keys, rfl⟩
  refine ⟨column, keys, hsplit, hsplit ▸ Join_Split input "->" hsep, ?_, ?_⟩
  · rw [exprLevel_eq_foldl column keys keys.length (le_refl _), List.take_length]
    unfold convertToJSONPath
    simp only [hsplit]
    cases keys with
    | nil => simp
    | cons k rest => simp [convertLoop_from_zero]
  · intro h
    unfold convertToJSONPath
    simp [Split_of_not_contains input "->" hsep h]


/-! ### `generateCondition` and `ParseConditions` -/

theorem doPrintf_percent_s (rest : List Char) (r : String) :
    fmt.doPrintf ('%' :: 's' :: rest) [r] fmt.Phase.text
      = r.data ++ fmt.doPrintf rest [] fmt.Phase.text := by
  simp [fmt.doPrintf, fmt.verb, fmt.isFlag, Char.isDigit]

theorem Sprintf_ne_empty (format : String) (t : List Char) (r : String)
    (h : format.data = '%' :: 's' :: ' ' :: t) : fmt.Sprintf format [r] ≠ "" := by
  intro heq
  have := congrArg String.data heq
  simp [fmt.Sprintf, h, doPrintf_percent_s, fmt.doPrintf] at this

theorem generateCondition_ne_empty (filter : Filter) (condition : String) (valor : Value)
    (hop : supportedOperator filter.Operador = true)
    (h : generateCondition filter = some (condition, valor)) : condition ≠ "" := by
  have h1 : fmt.Sprintf ("%s" ++ " = ?") [convertToJSONPath filter.Campo] ≠ "" :=
    Sprintf_ne_empty _ ['=', ' ', '?'] _ rfl
  have h2 : fmt.Sprintf ("%s" ++ " > ?") [convertToJSONPath filter.Campo] ≠ "" :=
    Sprintf_ne_empty _ ['>', ' ', '?'] _ rfl
  have h3 : fmt.Sprintf ("%s" ++ " <> ?") [convertToJSONPath filter.Campo] ≠ "" :=
    Sprintf_ne_empty _ ['<', '>', ' ', '?'] _ rfl
  have h4 : fmt.Sprintf ("%s" ++ " < ?") [convertToJSONPath filter.Campo] ≠ "" :=
    Sprintf_ne_empty _ ['<', ' ', '?'] _ rfl
  have h5 : fmt.Sprintf ("%s" ++ " <= ?") [convertToJSONPath filter.Campo] ≠ "" :=
    Sprintf_ne_empty _ ['<', '=', ' ', '?'] _ rfl
  have h6 : fmt.Sprintf "%s LIKE ?" [convertToJSONPath filter.Campo] ≠ "" :=
    Sprintf_ne_empty _ ['L', 'I', 'K', 'E', ' ', '?'] _ rfl
  have h7 : fmt.Sprintf ("%s" ++ " IS " ++ filter.Valor) [convertToJSONPath filter.Campo] ≠ "" :=
    Sprintf_ne_empty _ (['I', 'S', ' '] ++ filter.Valor.data) _ rfl
  unfold generateCondition at h
  simp only [] at h
  have fin : ∀ (q : String) (v : Value), q ≠ "" → some (q, v) = some (condition, valor) →
      condition ≠ "" := by
    intro q v hq he
    simp only [Option.some.injEq, Prod.mk.injEq] at he
    exact he.1 ▸ hq
  by_cases e1 : filter.Operador = "="
  · rw [if_pos e1] at h
    by_cases e : filter.Valor = "NULL" ∨ filter.Valor = "NOT NULL"
    · rw [if_pos e] at h; exact fin _ _ h7 h
    · rw [if_neg e] at h; exact fin _ _ h1 h
  rw [if_neg e1] at h
  by_cases e2 : filter.Operador = ">"
  · rw [if_pos e2] at h; exact fin _ _ h2 h
  rw [if_neg e2] at h
  by_cases e3 : filter.Operador = "<>"
  · rw [if_pos e3] at h; exact fin _ _ h3 h
  rw [if_neg e3] at h
  by_cases e4 : filter.Operador = ">="
  · rw [if_pos e4] at h; exact fin _ _ h2 h
  rw [if_neg e4] at h
  by_cases e5 : filter.Operador = "<"
  · rw [if_pos e5] at h; exact fin _ _ h4 h
  rw [if_neg e5] at h
  by_cases e6 : filter.Operador = "<="
  · rw [if_pos e6] at h; exact fin _ _ h5 h
  rw [if_neg e6] at h
  by_cases e7 : filter.Operador = "IS" ∨ filter.Operador = "is"
  · rw [if_pos e7] at h; exact fin _ _ h7 h
  rw [if_neg e7] at h
  by_cases e8 : filter.Operador = "LIKE" ∨ filter.Operador = "like"
  · rw [if_pos e8] at h
    by_cases e : filter.Valor = "true" ∨ filter.Valor = "false"
    · rw [if_pos e] at h; exact absurd h (by simp)
    · rw [if_neg e] at h; exact fin _ _ h6 h
  · exfalso
    simp only [supportedOperator, decide_eq_true_eq, List.mem_cons, List.mem_singleton,
      List.not_mem_nil, or_false] at hop
    tauto

theorem Sprintf_percent_s (tail : String) (r : String)
    (h : fmt.doPrintf tail.data [] fmt.Phase.text = tail.data) :
    fmt.Sprintf ("%s" ++ tail) [r] = r ++ tail := by
  apply String.ext
  have h0 : ("%s" : String).data = ['%', 's'] := rfl
  simp only [fmt.Sprintf, String.data_append, h0, List.cons_append, List.nil_append,
    doPrintf_percent_s, h]

/-- Apart from `>=`, a standard comparison compiles to the field, the operator and a
placeholder, and binds the value as a boolean when it is "true" or "false" and as the string
otherwise. -/
theorem generateCondition_standard (filter : Filter)
    (hop : filter.Operador ∈ ["=", ">", "<", "<=", "<>"])
    (hnull : filter.Operador = "=" → filter.Valor ≠ "NULL" ∧ filter.Valor ≠ "NOT NULL") :
    generateCondition filter
      = some (convertToJSONPath filter.Campo ++ (" " ++ filter.Operador ++ " ?"),
          if filter.Valor = "true" then Value.bool true
          else if filter.Valor = "false" then Value.bool false
          else Value.str filter.Valor) := by
  have hval : (if filter.Valor = "true" ∨ filter.Valor = "false" then
        Value.bool (decide (filter.Valor = "true")) else Value.str filter.Valor)
      = (if filter.Valor = "true" then Value.bool true
          else if filter.Valor = "false" then Value.bool false
          else Value.str filter.Valor) := by
    by_cases ht : filter.Valor = "true"
    · simp [ht]
    · by_cases hf : filter.Valor = "false"
      · simp [hf]
      · simp [ht, hf]
  unfold generateCondition
  simp only [hval]
  simp only [List.mem_cons, List.mem_singleton, List.not_mem_nil, or_false] at hop
  rcases hop with e | e | e | e | e
  · have hn := hnull e
    rw [if_pos e, if_neg (by tauto), e]
    exact congrArg (fun q => some (q, _)) (Sprintf_percent_s " = ?" _ (by decide))
  · rw [if_neg (by rw [e]; decide), if_pos e, e]
    exact congrArg (fun q => some (q, _)) (Sprintf_percent_s " > ?" _ (by decide))
  · rw [if_neg (by rw [e]; decide), if_neg (by rw [e]; decide), if_neg (by rw [e]; decide),
      if_neg (by rw [e]; decide), if_pos e, e]
    exact congrArg (fun q => some (q, _)) (Sprintf_percent_s " < ?" _ (by decide))
  · rw [if_neg (by rw [e]; decide), if_neg (by rw [e]; decide), if_neg (by rw [e]; decide),
      if_neg (by rw [e]; decide), if_neg (by rw [e]; decide), if_pos e, e]
    exact congrArg (fun q => some (q, _)) (Sprintf_percent_s " <= ?" _ (by decide))
  · rw [if_neg (by rw [e]; decide), if_neg (by rw [e]; decide), if_pos e, e]
    exact congrArg (fun q => some (q, _)) (Sprintf_percent_s " <> ?" _ (by decide))

theorem generateCondition_eq_none_iff (filter : Filter) :
    generateCondition filter = none ↔
      (filter.Operador = "LIKE" ∨ filter.Operador = "like") ∧
        (filter.Valor = "true" ∨ filter.Valor = "false") := by
  unfold generateCondition
  simp only []
  by_cases e1 : filter.Operador = "="
  · rw [if_pos e1]
    have : ¬ (filter.Operador = "LIKE" ∨ filter.Operador = "like") := by
      rw [e1]; decide
    by_cases e : filter.Valor = "NULL" ∨ filter.Valor = "NOT NULL"
    · rw [if_pos e]; simp [this]
    · rw [if_neg e]; simp [this]
  rw [if_neg e1]
  by_cases e2 : filter.Operador = ">"
  · rw [if_pos e2]
    have : ¬ (filter.Operador = "LIKE" ∨ filter.Operador = "like") := by
      rw [e2]; decide
    simp [this]
  rw [if_neg e2]
  by_cases e3 : filter.Operador = "<>"
  · rw [if_pos e3]
    have : ¬ (filter.Operador = "LIKE" ∨ filter.Operador = "like") := by
      rw [e3]; decide
    simp [this]
  rw [if_neg e3]
  by_cases e4 : filter.Operador = ">="
  · rw [if_pos e4]
    have : ¬ (filter.Operador = "LIKE" ∨ filter.Operador = "like") := by
      rw [e4]; decide
    simp [this]
  rw [if_neg e4]
  by_cases e5 : filter.Operador = "<"
  · rw [if_pos e5]
    have : ¬ (filter.Operador = "LIKE" ∨ filter.Operador = "like") := by
      rw [e5]; decide
    simp [this]
  rw [if_neg e5]
  by_cases e6 : filter.Operador = "<="
  · rw [if_pos e6]
    have : ¬ (filter.Operador = "LIKE" ∨ filter.Operador = "like") := by
      rw [e6]; decide
    simp [this]
  rw [if_neg e6]
  by_cases e7 : filter.Operador = "IS" ∨ filter.Operador = "is"
  · rw [if_pos e7]
    have : ¬ (filter.Operador = "LIKE" ∨ filter.Operador = "like") := by
      rcases e7 with e | e <;> rw [e] <;> decide
    simp [this]
  rw [if_neg e7]
  by_cases e8 : filter.Operador = "LIKE" ∨ filter.Operador = "like"
  · rw [if_pos e8]
    by_cases e : filter.Valor = "true" ∨ filter.Valor = "false"
    · rw [if_pos e]; simp [e8, e]
    · rw [if_neg e]; simp [e]
  · rw [if_neg e8]; simp [e8]

theorem filterLoop_eq_none_iff (filters : List Filter) (subConditions : List String)
    (queryValues : List Value) :
    filterLoop filters subConditions queryValues = none ↔
      ∃ f ∈ filters, generateCondition f = none := by
  induction filters generalizing subConditions queryValues with
  | nil => simp [filterLoop]
  | cons f rest ih =>
    unfold filterLoop
    cases hg : generateCondition f with
    | none => simp [hg]
    | some r =>
      obtain ⟨condition, valor⟩ := r
      simp only [List.mem_cons, exists_eq_or_imp, hg]
      simpa using ih _ _

theorem groupLoop_eq_none_iff (params : List (List Filter)) (conditions : List String)
    (queryValues : List Value) :
    groupLoop params conditions queryValues = none ↔
      ∃ g ∈ params, ∃ f ∈ g, generateCondition f = none := by
  induction params generalizing conditions queryValues with
  | nil => simp [groupLoop]
  | cons g rest ih =>
    unfold groupLoop
    cases hf : filterLoop g [] queryValues with
    | none =>
      have := (filterLoop_eq_none_iff g [] queryValues).1 hf
      simp [this]
    | some r =>
      obtain ⟨subConditions, values⟩ := r
      have hno : ¬ ∃ f ∈ g, generateCondition f = none := by
        intro hex
        have := (filterLoop_eq_none_iff g [] queryValues).2 hex
        rw [hf] at this
        exact absurd this (by simp)
      simp only [List.mem_cons, exists_eq_or_imp, hno, false_or]
      exact ih _ _

/-- `ParseConditions` panics exactly when some filter has operator LIKE or like and value
"true" or "false". -/
theorem ParseConditions_eq_none_iff (params : List (List Filter)) :
    ParseConditions params = none ↔
      ∃ g ∈ params, ∃ f ∈ g, (f.Operador = "LIKE" ∨ f.Operador = "like") ∧
        (f.Valor = "true" ∨ f.Valor = "false") := by
  unfold ParseConditions
  cases hg : groupLoop params [] [] with
  | none =>
    have := (groupLoop_eq_none_iff params [] []).1 hg
    simpa [generateCondition_eq_none_iff] using this
  | some r =>
    have hno : ¬ ∃ g ∈ params, ∃ f ∈ g, generateCondition f = none := by
      intro hex
      have := (groupLoop_eq_none_iff params [] []).2 hex
      rw [hg] at this
      exact absurd this (by simp)
    simpa [generateCondition_eq_none_iff] using hno

theorem filterLoop_fst (filters : List Filter) (subConditions : List String)
    (queryValues : List Value)
    (hop : ∀ f ∈ filters, supportedOperator f.Operador = true) :
    (filterLoop filters subConditions queryValues).map Prod.fst
      = (groupFragments filters).map (fun fragments => subConditions ++ fragments) := by
  induction filters generalizing subConditions queryValues with
  | nil => simp [filterLoop, groupFragments]
  | cons f rest ih =>
    unfold filterLoop groupFragments
    cases hg : generateCondition f with
    | none => simp
    | some r =>
      obtain ⟨condition, valor⟩ := r
      have hne : condition ≠ "" :=
        generateCondition_ne_empty f condition valor (hop f (List.mem_cons_self _ _)) hg
      simp only [hne, ne_eq, not_false_eq_true, if_true]
      rw [ih _ _ (fun f hf => hop f (List.mem_cons_of_mem _ hf))]
      cases groupFragments rest with
      | none => simp
      | some fragments => simp

theorem groupLoop_fst (params : List (List Filter)) (conditions : List String)
    (queryValues : List Value)
    (hop : ∀ g ∈ params, ∀ f ∈ g, supportedOperator f.Operador = true) :
    (groupLoop params conditions queryValues).map Prod.fst
      = (allFragments params).map (fun groups => conditions ++ groups.map renderGroup) := by
  induction params generalizing conditions queryValues with
  | nil => simp [groupLoop, allFragments]
  | cons g rest ih =>
    have hfst := filterLoop_fst g [] queryValues (hop g (List.mem_cons_self _ _))
    unfold groupLoop allFragments
    cases hf : filterLoop g [] queryValues with
    | none =>
      rw [hf] at hfst
      cases hgf : groupFragments g with
      | none => simp
      | some fragments => rw [hgf] at hfst; simp at hfst
    | some r =>
      obtain ⟨subConditions, values⟩ := r
      rw [hf] at hfst
      cases hgf : groupFragments g with
      | none => rw [hgf] at hfst; simp at hfst
      | some fragments =>
        rw [hgf] at hfst
        simp only [Option.map_some', List.nil_append, Option.some.injEq] at hfst
        subst hfst
        simp only []
        rw [ih _ _ (fun g hg => hop g (List.mem_cons_of_mem _ hg))]
        cases allFragments rest with
        | none => simp
        | some others => simp [renderGroup]

/-- C7. When every filter has a supported operator, the expression of `ParseConditions` is the
groups' renderings joined by " AND " in original order, a group's rendering being its filters'
fragments joined by " OR " in original order and parenthesized exactly when there is more than
one fragment. The equation is between optional results: there is no expression exactly when
compiling some filter panics. When no LIKE filter has the value "true" or "false", all the
fragments exist and `ParseConditions` returns that expression. -/
theorem ParseConditions_expression (params : List (List Filter))
    (hop : ∀ g ∈ params, ∀ f ∈ g, supportedOperator f.Operador = true) :
    (ParseConditions params).map Prod.fst = (allFragments params).map renderGroups ∧
      ((∀ g ∈ params, ∀ f ∈ g, (f.Operador = "LIKE" ∨ f.Operador = "like") →
          f.Valor ≠ "true" ∧ f.Valor ≠ "false") →
        ∃ fragments values, allFragments params = some fragments ∧
          ParseConditions params = some (renderGroups fragments, values)) := by
  have hmap : (ParseConditions params).map Prod.fst = (allFragments params).map renderGroups := by
    have h := groupLoop_fst params [] [] hop
    unfold ParseConditions
    cases hg : groupLoop params [] [] with
    | none =>
      rw [hg] at h
      cases ha : allFragments params with
      | none => simp
      | some groups => rw [ha] at h; simp at h
    | some r =>
      obtain ⟨conditions, values⟩ := r
      rw [hg] at h
      cases ha : allFragments params with
      | none => rw [ha] at h; simp at h
      | some groups =>
        rw [ha] at h
        simp only [Option.map_some', List.nil_append, Option.some.injEq] at h
        simp [renderGroups, h]
  refine ⟨hmap, ?_⟩
  intro hlike
  cases hp : ParseConditions params with
  | none =>
    obtain ⟨g, hg, f, hf, hl, hv⟩ := (ParseConditions_eq_none_iff params).1 hp
    have := hlike g hg f hf hl
    tauto
  | some r =>
    obtain ⟨expression, values⟩ := r
    rw [hp] at hmap
    cases ha : allFragments params with
    | none => rw [ha] at hmap; simp at hmap
    | some fragments =>
      rw [ha] at hmap
      simp only [Option.map_some', Option.some.injEq] at hmap
      exact ⟨fragments, values, rfl, by rw [hmap]⟩

/-! ### `GETORDER` -/

/-- C4, as amended. For a Criteria whose orderBy is absent, `GETORDER` returns the empty string
when order is absent too, and a space followed by the order value when order is present. -/
theorem GETORDER_without_orderBy (c : Criteria) (h : c.ordeby = none) :
    c.GETORDER = match c.order with
      | none => ""
      | some dir => " " ++ dir := by
  unfold Criteria.GETORDER
  rw [h]
  cases c.order with
  | none => rfl
  | some dir => exact String.ext (by simp [String.data_append])

/-! ### `parseToFilterArrays` and `CriteriaFromRequest` -/

theorem splitGo_index (d tail cur : List Char) (hd : ∀ c ∈ d, c.isDigit = true) :
    strings.splitGo [']', '['] (d ++ ']' :: '[' :: tail) 0 cur
      = (cur.reverse ++ d) :: strings.splitGo [']', '['] tail 0 [] := by
  induction d generalizing cur with
  | nil => simp [strings.splitGo, strings.hasPrefix]
  | cons c d ih =>
    have hc : c ≠ ']' := by
      intro h
      have := hd c (List.mem_cons_self _ _)
      rw [h] at this
      exact absurd this (by decide)
    have hpre : strings.hasPrefix (c :: (d ++ ']' :: '[' :: tail)) [']', '['] = false := by
      simp [strings.hasPrefix, hc]
    rw [List.cons_append, strings.splitGo, if_neg (by simp [hpre]),
      ih (c :: cur) (fun x hx => hd x (List.mem_cons_of_mem _ hx))]
    simp

theorem readIndex_eq_some (close s rest : List Char) (h : readIndex close s = some rest) :
    ∃ d, d ≠ [] ∧ (∀ c ∈ d, c.isDigit = true) ∧ s = d ++ close ++ rest := by
  unfold readIndex at h
  simp only [] at h
  split_ifs at h with hc
  simp only [Option.some.injEq] at h
  refine ⟨s.takeWhile Char.isDigit, hc.1, fun c hcm => (List.mem_takeWhile_imp hcm), ?_⟩
  have h1 := hasPrefix_eq_append _ _ hc.2
  rw [h] at h1
  rw [List.append_assoc, ← h1, List.takeWhile_append_dropWhile]

theorem keyParts_exact (di dj word : List Char) (hdi : ∀ c ∈ di, c.isDigit = true)
    (hdj : ∀ c ∈ dj, c.isDigit = true)
    (hword : strings.splitGo [']', '['] word 0 [] = [word]) :
    keyParts (String.mk
        ("filters[".data ++ ((di ++ ']' :: '[' :: (dj ++ ']' :: '[' :: word)) ++ [']'])))
      = [String.mk di, String.mk dj, String.mk word] := by
  generalize hinner : di ++ ']' :: '[' :: (dj ++ ']' :: '[' :: word) = inner
  have hsep : ("][" : String).data = [']', '['] := rfl
  have hpre : strings.hasPrefix ("filters[".data ++ (inner ++ [']'])) "filters[".data = true := by
    simp [strings.hasPrefix]
  have hdrop : ("filters[".data ++ (inner ++ [']'])).drop "filters[".data.length
      = inner ++ [']'] := by
    simp
  have hsuf : strings.hasPrefix (inner ++ [']']).reverse "]".data.reverse = true := by
    rw [List.reverse_append]
    simp [strings.hasPrefix]
  have htake : (inner ++ [']']).take ((inner ++ [']']).length - "]".data.length) = inner := by
    have : (inner ++ [']']).length - "]".data.length = inner.length := by simp
    rw [this, List.take_left']
    rfl
  unfold keyParts strings.TrimPrefix
  simp only [hpre, if_true, hdrop]
  unfold strings.TrimSuffix
  simp only [hsuf, if_true, htake]
  unfold strings.Split
  simp only [hsep, List.cons_ne_nil, if_false]
  rw [← hinner, splitGo_index di _ [] hdi, splitGo_index dj _ [] hdj, hword]
  simp

theorem acceptedKey_of_isFilterKey (key : String) (h : isFilterKey key = true) :
    acceptedKey key = true := by
  unfold isFilterKey at h
  split_ifs at h with hpre
  split at h
  · next afterI hI =>
    split at h
    · next attr hJ =>
      obtain ⟨di, -, hdi, hsI⟩ := readIndex_eq_some _ _ _ hI
      obtain ⟨dj, -, hdj, hsJ⟩ := readIndex_eq_some _ _ _ hJ
      have hkey := hasPrefix_eq_append _ _ hpre
      rw [hsI, hsJ] at hkey
      obtain ⟨L⟩ := key
      simp only at hkey
      have hcontains : strings.Contains (String.mk L) "filter" = true := by
        rw [hkey]
        simp [strings.Contains, strings.containsChars, strings.hasPrefix]
      simp only [decide_eq_true_eq, List.mem_cons, List.mem_singleton, List.not_mem_nil,
        or_false] at h
      have hparts : ∃ word, attr = word ++ [']'] ∧
          strings.splitGo [']', '['] word 0 [] = [word] := by
        rcases h with h | h | h
        · exact ⟨"campo".data, by simpa using congrArg String.data h, by decide⟩
        · exact ⟨"operador".data, by simpa using congrArg String.data h, by decide⟩
        · exact ⟨"valor".data, by simpa using congrArg String.data h, by decide⟩
      obtain ⟨word, rfl, hword⟩ := hparts
      have hk := keyParts_exact di dj word hdi hdj hword
      have hL : L = "filters[".data ++ ((di ++ ']' :: '[' :: (dj ++ ']' :: '[' :: word)) ++ [']']) := by
        rw [hkey]
        simp
      rw [← hL] at hk
      simp [acceptedKey, hcontains, hk]
    · exact absurd h (by simp)
  · exact absurd h (by simp)

theorem valueStep_nonneg (U : unicode.CaseTables) (index1 index2 : Int) (filterKey : String)
    (h1 : 0 ≤ index1) (h2 : 0 ≤ index2) (conditionArrays : List (List Filter))
    (value : String) :
    ∃ next, valueStep U index1 index2 filterKey conditionArrays value = some next := by
  unfold valueStep assignCell
  simp only [not_lt.2 h1, not_lt.2 h2, if_false]
  split_ifs <;> exact ⟨_, rfl⟩

theorem valuesLoop_nonneg (U : unicode.CaseTables) (index1 index2 : Int) (filterKey : String)
    (h1 : 0 ≤ index1) (h2 : 0 ≤ index2) (values : List String)
    (conditionArrays : List (List Filter)) :
    ∃ next, valuesLoop U index1 index2 filterKey values conditionArrays = some next := by
  induction values generalizing conditionArrays with
  | nil => exact ⟨_, rfl⟩
  | cons value rest ih =>
    obtain ⟨next, hnext⟩ := valueStep_nonneg U index1 index2 filterKey h1 h2 conditionArrays value
    unfold valuesLoop
    rw [hnext]
    exact ih next

theorem entryStep_of_not_accepted (U : unicode.CaseTables) (conditionArrays : List (List Filter))
    (entry : String × List String) (h : acceptedKey entry.1 = false) :
    entryStep U conditionArrays entry = some conditionArrays := by
  unfold entryStep
  by_cases hc : strings.Contains entry.1 "filter" = true
  · rw [if_pos hc]
    have hlen : (keyParts entry.1).length ≠ 3 := by
      simpa [acceptedKey, hc] using h
    split
    · next p0 p1 filterKey heq => exact absurd (by rw [heq]; rfl) hlen
    · rfl
  · rw [if_neg hc]

theorem populateLoop_filter_accepted (U : unicode.CaseTables) (queryParam : QueryParam)
    (conditionArrays : List (List Filter)) :
    populateLoop U (queryParam.filter (fun entry => acceptedKey entry.1)) conditionArrays
      = populateLoop U queryParam conditionArrays := by
  induction queryParam generalizing conditionArrays with
  | nil => rfl
  | cons entry rest ih =>
    by_cases h : acceptedKey entry.1 = true
    · simp only [List.filter_cons, h, if_true]
      unfold populateLoop
      cases entryStep U conditionArrays entry with
      | none => rfl
      | some next => exact ih next
    · have h' : acceptedKey entry.1 = false := by simpa using h
      simp only [List.filter_cons, h', Bool.false_eq_true, if_false]
      conv_rhs => unfold populateLoop
      rw [entryStep_of_not_accepted U conditionArrays entry h']
      exact ih conditionArrays

theorem CriteriaFromRequest_filtros (U : unicode.CaseTables) (queryParam : QueryParam) :
    (CriteriaFromRequest U queryParam).map Criteria.filtros
      = (populateLoop U queryParam []).map (fun matrix => conditionLoop matrix []) := by
  unfold CriteriaFromRequest parseToFilterArrays
  cases populateLoop U queryParam [] with
  | none => rfl
  | some matrix => rfl

/-- A map free of negative indices is parsed without panic: if populating the matrix panics,
some key that is cut into three parts carries an index that `strconv.Atoi` reads as a negative
number. -/
theorem populateLoop_eq_none (U : unicode.CaseTables) (queryParam : QueryParam)
    (conditionArrays : List (List Filter))
    (h : populateLoop U queryParam conditionArrays = none) :
    ∃ entry ∈ queryParam, ∃ p0 p1 filterKey, keyParts entry.1 = [p0, p1, filterKey] ∧
      ((strconv.Atoi p0).1 < 0 ∨ (strconv.Atoi p1).1 < 0) := by
  induction queryParam generalizing conditionArrays with
  | nil => simp [populateLoop] at h
  | cons entry rest ih =>
    unfold populateLoop at h
    cases he : entryStep U conditionArrays entry with
    | none =>
      refine ⟨entry, List.mem_cons_self _ _, ?_⟩
      unfold entryStep at he
      split_ifs at he
      split at he
      · next p0 p1 filterKey hk =>
        refine ⟨p0, p1, filterKey, hk, ?_⟩
        by_contra hneg
        simp only [not_or, not_lt] at hneg
        obtain ⟨next, hnext⟩ :=
          valuesLoop_nonneg U _ _ filterKey hneg.1 hneg.2 entry.2 conditionArrays
        rw [hnext] at he
        exact absurd he (by simp)
      · exact absurd he (by simp)
    | some next =>
      rw [he] at h
      obtain ⟨e, hmem, hrest⟩ := ih next h
      exact ⟨e, List.mem_cons_of_mem _ hmem, hrest⟩

/-- C3, as amended. A key that does not contain "filter", or that is not cut into exactly
three parts by trimming "filters[" and "]" and splitting on "][", is ignored by the parser:
`CriteriaFromRequest` gives the same filter groups (or panics alike) for the map with those
keys removed. Every key so removed is a key that is not of the exact form
`filters[<i>][<j>][<attr>]`. -/
theorem CriteriaFromRequest_ignores_unaccepted (U : unicode.CaseTables)
    (queryParam : QueryParam) :
    (∀ entry ∈ queryParam, acceptedKey entry.1 = false → isFilterKey entry.1 = false) ∧
      (CriteriaFromRequest U queryParam).map Criteria.filtros
        = (CriteriaFromRequest U (queryParam.filter (fun entry => acceptedKey entry.1))).map
            Criteria.filtros := by
  refine ⟨?_, ?_⟩
  · intro entry _ hacc
    cases hk : isFilterKey entry.1 with
    | false => rfl
    | true =>
      rw [acceptedKey_of_isFilterKey entry.1 hk] at hacc
      exact absurd hacc (by simp)
  · rw [CriteriaFromRequest_filtros, CriteriaFromRequest_filtros, populateLoop_filter_accepted]

theorem itemLoop_eq (items filteredCondition : List Filter) :
    itemLoop items filteredCondition
      = filteredCondition ++ items.filter (fun f => decide (f.Valor ≠ "undefined")) := by
  induction items generalizing filteredCondition with
  | nil => simp [itemLoop]
  | cons item rest ih =>
    unfold itemLoop
    by_cases h : item.Valor ≠ "undefined"
    · rw [if_pos h, ih, List.filter_cons_of_pos (by simpa using h)]
      simp
    · rw [if_neg h, ih, List.filter_cons_of_neg (by simpa using h)]

theorem conditionLoop_eq (matrix result : List (List Filter)) :
    conditionLoop matrix result = result ++ survivors matrix := by
  induction matrix generalizing result with
  | nil => simp [conditionLoop, survivors]
  | cons condition rest ih =>
    unfold conditionLoop
    rw [ih, itemLoop_eq]
    simp only [List.nil_append, survivors, List.map_cons]
    generalize condition.filter (fun f => decide (f.Valor ≠ "undefined")) = kept
    cases kept with
    | nil => simp [List.filter_cons]
    | cons f kept => simp [List.filter_cons]

/-- C8. The filter groups of `CriteriaFromRequest` are the populated filter matrix with the
filters of value "undefined" removed and then the empty groups removed, everything else kept in
place (there is a result exactly when populating the matrix does not panic); so they contain no
filter whose value is "undefined" and no empty group. -/
theorem CriteriaFromRequest_survivors (U : unicode.CaseTables) (queryParam : QueryParam) :
    (CriteriaFromRequest U queryParam).map Criteria.filtros
        = (populateLoop U queryParam []).map survivors ∧
      ∀ c, CriteriaFromRequest U queryParam = some c →
        ∀ g ∈ c.filtros, g ≠ [] ∧ ∀ f ∈ g, f.Valor ≠ "undefined" := by
  have hmap : (CriteriaFromRequest U queryParam).map Criteria.filtros
      = (populateLoop U queryParam []).map survivors := by
    rw [CriteriaFromRequest_filtros]
    simp [conditionLoop_eq]
  refine ⟨hmap, ?_⟩
  intro c hc g hg
  rw [hc] at hmap
  cases hp : populateLoop U queryParam [] with
  | none => rw [hp] at hmap; simp at hmap
  | some matrix =>
    rw [hp] at hmap
    simp only [Option.map_some', Option.some.injEq] at hmap
    rw [hmap] at hg
    simp only [survivors, List.mem_filter, List.mem_map, decide_eq_true_eq] at hg
    obtain ⟨⟨row, -, rfl⟩, hne⟩ := hg
    refine ⟨hne, ?_⟩
    intro f hf
    simpa using (List.mem_filter.1 hf).2

/-! ### Evaluations -/

/-- C1. One filter with operator IS and the literal TRUE: `ParseConditions` returns an
expression without any placeholder together with a value list of one entry. -/
theorem ParseConditions_IS_literal_counts :
    ParseConditions [[⟨"active", "IS", "TRUE"⟩]] = some ("active IS TRUE", [Value.str "TRUE"]) ∧
      countPlaceholders "active IS TRUE" = 0 ∧ [Value.str "TRUE"].length = 1 := by
  decide

/-- C2. A filter with operator LIKE (or like) and value "true" (or "false") makes
`ParseConditions` panic: there is no result. -/
theorem ParseConditions_LIKE_bool_panics :
    ParseConditions [[⟨"name", "LIKE", "true"⟩]] = none ∧
      ParseConditions [[⟨"name", "like", "false"⟩]] = none := by
  decide

/-- C5. For the operator `>=`, `generateCondition` emits the fragment of `>`, whereas `<=`
keeps its operator. -/
theorem generateCondition_ge_emits_gt :
    generateCondition ⟨"age", ">=", "18"⟩ = some ("age > ?", Value.str "18") ∧
      generateCondition ⟨"age", "<=", "18"⟩ = some ("age <= ?", Value.str "18") := by
  decide

/-- C6. A filter with operator is and the literal false compiles to a fragment without
placeholder and still adds an entry to the value list, ahead of the value of the only
placeholder. -/
theorem ParseConditions_IS_literal_binds :
    ParseConditions [[⟨"flag", "is", "false"⟩], [⟨"name", "=", "Ann"⟩]]
        = some ("flag IS false AND name = ?", [Value.bool false, Value.str "Ann"]) ∧
      placeholderValues [[⟨"flag", "is", "false"⟩], [⟨"name", "=", "Ann"⟩]]
        = [Value.str "Ann"] := by
  decide

/-- C3, as stated, fails: the key `filters[a][0][valor]` has a non-numeric index, so it is not
of the exact form, yet the parser reads it as filter 0,0; removing it changes the result. -/
theorem CriteriaFromRequest_reads_inexact_key :
    isFilterKey "filters[0][0][valor]" = true ∧ isFilterKey "filters[a][0][valor]" = false ∧
      (CriteriaFromRequest unicode.ascii [("filters[a][0][valor]", ["x"])]).map Criteria.filtros
        = some [[⟨"", "", "x"⟩]] ∧
      (CriteriaFromRequest unicode.ascii
          ([("filters[a][0][valor]", ["x"])].filter (fun entry => isFilterKey entry.1))).map
          Criteria.filtros
        = some [] := by
  decide

/-- C4, as stated, fails: with orderBy absent and order DESC, `GETORDER` returns " DESC",
which is not the empty string. -/
theorem GETORDER_direction_only :
    (NewCriteria [] none none (some "DESC") none).ordeby = none ∧
      (NewCriteria [] none none (some "DESC") none).GETORDER = " DESC" ∧
      (NewCriteria [] none none (some "DESC") none).GETORDER ≠ "" := by
  decide

/-- C3, amended, at a map with a pagination key next to a filter key. -/
theorem CriteriaFromRequest_ignores_unaccepted_witness :
    acceptedKey "page" = false ∧ isFilterKey "page" = false ∧
      (CriteriaFromRequest unicode.ascii
          [("page", ["2"]), ("filters[0][0][valor]", ["Ann"])]).map Criteria.filtros
        = (CriteriaFromRequest unicode.ascii
            ([("page", ["2"]), ("filters[0][0][valor]", ["Ann"])].filter
              (fun entry => acceptedKey entry.1))).map Criteria.filtros :=
  ⟨by decide,
    (CriteriaFromRequest_ignores_unaccepted unicode.ascii
      [("page", ["2"]), ("filters[0][0][valor]", ["Ann"])]).1 _ (List.mem_cons_self _ _)
      (by decide),
    (CriteriaFromRequest_ignores_unaccepted unicode.ascii
      [("page", ["2"]), ("filters[0][0][valor]", ["Ann"])]).2⟩

/-- C4, amended, at a Criteria with order ASC and no orderBy. -/
theorem GETORDER_without_orderBy_witness :
    (NewCriteria [] none none (some "ASC") none).ordeby = none ∧
      (NewCriteria [] none none (some "ASC") none).GETORDER = " ASC" :=
  ⟨rfl, GETORDER_without_orderBy (NewCriteria [] none none (some "ASC") none) rfl⟩

/-- C7 at the example of the specification: two groups, the first with two filters. -/
theorem ParseConditions_expression_witness :
    (∀ g ∈ [[(⟨"age", ">", "18"⟩ : Filter), ⟨"age", "<", "65"⟩], [⟨"active", "=", "true"⟩]],
        ∀ f ∈ g, supportedOperator f.Operador = true) ∧
      ∃ fragments values,
        allFragments [[⟨"age", ">", "18"⟩, ⟨"age", "<", "65"⟩], [⟨"active", "=", "true"⟩]]
          = some fragments ∧
        ParseConditions [[⟨"age", ">", "18"⟩, ⟨"age", "<", "65"⟩], [⟨"active", "=", "true"⟩]]
          = some (renderGroups fragments, values) :=
  ⟨by decide,
    (ParseConditions_expression
      [[⟨"age", ">", "18"⟩, ⟨"age", "<", "65"⟩], [⟨"active", "=", "true"⟩]]
      (by decide)).2 (by decide)⟩

/-- C8 at a map with an undefined value and a group made only of such a filter. -/
theorem CriteriaFromRequest_survivors_witness :
    CriteriaFromRequest unicode.ascii
        [("filters[0][0][valor]", ["undefined"]), ("filters[1][1][valor]", ["Ann"]),
          ("filters[1][0][valor]", ["undefined"])]
        = some (NewCriteria [[⟨"", "", "Ann"⟩]] none none none none) ∧
      ∀ g ∈ (NewCriteria [[⟨"", "", "Ann"⟩]] none none none none).filtros,
        g ≠ [] ∧ ∀ f ∈ g, f.Valor ≠ "undefined" :=
  ⟨by decide,
    (CriteriaFromRequest_survivors unicode.ascii
      [("filters[0][0][valor]", ["undefined"]), ("filters[1][1][valor]", ["Ann"]),
        ("filters[1][0][valor]", ["undefined"])]).2 _ (by decide)⟩

/-- C9 at a field without "->". -/
theorem convertToJSONPath_nesting_witness :
    strings.Contains "first_name" "->" = false ∧ convertToJSONPath "first_name" = "first_name" :=
  ⟨by decide, by
    obtain ⟨_, _, _, _, _, h⟩ := convertToJSONPath_nesting "first_name"
    exact h (by decide)⟩

end Godbkit
